import Mathlib

/-!
# Fusion — verification of the synchronization/event/transfer core

Shallow embedding of the `caleb-mwasikira/fusion` distributed filesystem
(Go) and proofs about its specification claims.

Conventions:
* Go `string` values are embedded as `List Char` (`GoStr`).
* Filesystem paths are embedded as lists of path segments (`FsPath`).
* Byte slices are embedded as `List Nat`.
* The MD5 digest is abstracted as a function parameter `h`; both sides of
  the transfer protocol use the same function, which is all the code
  relies on (the spec notes the hash is only used for change detection).
-/

set_option maxHeartbeats 1000000

namespace Fusion

/-! Section: Go string primitives (strings / path/filepath packages). -/

/-- Go `string` as a list of characters. -/
abbrev GoStr := List Char

/-- Convert a Lean string literal to a `GoStr`. -/
def strLit (s : String) : GoStr := s.data

/-- Decide, as `leads pre l`, whether `pre` is a leading segment of `l`
(generic version of Go `strings.HasPrefix`, also used on segment lists). -/
def leads {α : Type} [DecidableEq α] : List α → List α → Bool
  | [], _ => true
  | _ :: _, [] => false
  | x :: xs, y :: ys => if x = y then leads xs ys else false

/-- Go `strings.Contains(s, sub)`: `sub` occurs somewhere inside `s`. -/
def strContains : GoStr → GoStr → Bool
  | s, sub =>
    leads sub s ||
      (match s with
       | [] => false
       | _ :: t => strContains t sub)

/-- Go `strings.TrimPrefix(s, pre)`. -/
def trimLead (s pre : GoStr) : GoStr :=
  if leads pre s then s.drop pre.length else s

/-- Go `path/filepath.Base`: last element of the path; `"."` for the empty
string, `"/"` for an all-slash path, trailing slashes stripped. -/
def pathBase (p : GoStr) : GoStr :=
  if p = [] then ['.']
  else
    let q := (p.reverse.dropWhile (fun c => c = '/')).reverse
    let r := (q.reverse.takeWhile (fun c => ¬ (c = '/'))).reverse
    if r = [] then ['/'] else r

/-! Section: event model (`lib/events`, `proto.FileEvent`).

The `events` enum is consumed only through its four symbolic constants
(`ADD_FILE`, `MODIFY_FILE`, `RENAME_FILE`, `DELETE_FILE`) plus a default
branch for anything else; it is embedded as an inductive. -/

inductive EventType where
  | addFile
  | modifyFile
  | renameFile
  | deleteFile
  | unregistered
  deriving DecidableEq, Repr

/-- The slice of `os.FileMode` the event handlers inspect:
`mode.IsDir()`, `mode.IsRegular()`, or neither. -/
inductive FileKind where
  | dir
  | regular
  | other
  deriving DecidableEq, Repr

/-- Wire record `proto.FileEvent` as published by the server
(timestamp omitted: never read by any consumer in the core). -/
structure FileEvent where
  event : EventType
  path : GoStr
  newPath : GoStr
  mode : FileKind
  deriving DecidableEq, Repr

/-! Section: server event bus (server observers file, `src/unnamed/part_013`). -/

/-- Server-side `relativePath` (part_008:20-24): trim the FUSE backing
root, then the GRPC mountpoint, off the front of an absolute path. -/
def relativePath (realpath mountpoint p : GoStr) : GoStr :=
  trimLead (trimLead p realpath) mountpoint

/-- The temp-file test inside `notifyObservers`: name begins with a dot. -/
def isTempFile (filename : GoStr) : Bool :=
  leads ['.'] filename

/-- Function `notifyObservers` (part_013:78-102): relativize both paths, drop the
event when either basename is dotted, otherwise put a `FileEvent` on the
broadcast channel. `some ev` models a publication, `none` models the
early return that publishes nothing. -/
def notifyObservers (realpath mountpoint : GoStr) (event : EventType)
    (path newpath : GoStr) (mode : FileKind) : Option FileEvent :=
  let p := relativePath realpath mountpoint path
  let np := relativePath realpath mountpoint newpath
  if isTempFile (pathBase p) || isTempFile (pathBase np) then none
  else some ⟨event, p, np, mode⟩

/-- The exact publication call made by the server node's `Mkdir`
(part_008:162-164) after a successful local mkdir: the new-path argument
is the empty string. `Create` (part_008:283-285) and `Rmdir`
(part_008:180-182) publish through calls of the same shape. -/
def serverMkdirNotification (realpath mountpoint : GoStr)
    (fullpath : GoStr) (mode : FileKind) : Option FileEvent :=
  notifyObservers realpath mountpoint .addFile fullpath [] mode

/-- A subscriber registry entry: observed root paired with the client
channels registered under it (channels are identified by numbers). -/
abbrev ObserverRegistry := List (GoStr × List Nat)

/-- Function `getObservers` (part_013:30-41): walk the registry and collect the
channels of every entry whose observed path is contained — as a plain
substring, via `strings.Contains` — in the event path. -/
def getObservers (reg : ObserverRegistry) (path : GoStr) : List Nat :=
  reg.foldl
    (fun clients pr =>
      if strContains path pr.1 then clients ++ pr.2 else clients)
    []

/-- Go `strings.Split(s, "/")` (used only to state the spec's notion of a
path-segment prefix; the source itself never splits). -/
def splitOnSlash : GoStr → List GoStr
  | [] => [[]]
  | c :: rest =>
    match splitOnSlash rest with
    | [] => [[c]]
    | h :: t => if c = '/' then [] :: h :: t else (c :: h) :: t

/-- Modelled from the spec: "a path match is a *prefix containment* test"
on path segments — the registered root, split on `/`, is a leading
segment list of the event path split on `/`. This is the spec's intended
matching relation, to be compared with `getObservers`' actual test. -/
def specSegmentContainment (root path : GoStr) : Bool :=
  leads (splitOnSlash root) (splitOnSlash path)

/-! Section: filesystem model.

The node adapters operate on a real backing directory through syscalls.
They are embedded over a finite map from the path (relative to the
backing root, as a list of segments) to the entry stored there.  The
root itself always exists as a directory and is not stored in the list. -/

/-- A path relative to the backing root, as a list of segments. -/
abbrev FsPath := List String

/-- A filesystem entry: a directory or a regular file with content,
each carrying the inode number the backing store reports for it. -/
inductive Ent where
  | dir : Nat → Ent
  | file : Nat → List Nat → Ent
  deriving DecidableEq, Repr

/-- The backing store: a finite association of paths to entries. -/
abbrev FS := List (FsPath × Ent)

/-- The errno values produced by the syscalls the embedded code issues. -/
inductive FsErr where
  | enoent
  | eexist
  | enotdir
  | eisdir
  | enotempty
  | einval
  | eacces
  | eio
  | enospc
  deriving DecidableEq, Repr

/-- Stat a path: the root is always a directory; other paths resolve to
the first entry recorded for them. -/
def entryAt (fs : FS) (p : FsPath) : Option Ent :=
  if p = [] then some (.dir 0)
  else (fs.find? (fun pr => decide (pr.1 = p))).map (·.2)

/-- Whether any recorded entry lies strictly below `p`. -/
def childExists (fs : FS) (p : FsPath) : Bool :=
  fs.any (fun pr => leads p pr.1 && decide (pr.1 ≠ p))

/-- Erase every record at key `p`. -/
def removeAtKey (fs : FS) (p : FsPath) : FS :=
  fs.filter (fun pr => decide (pr.1 ≠ p))

/-- Record entry `e` at key `p` (replacing any previous record). -/
def insertAtKey (fs : FS) (p : FsPath) (e : Ent) : FS :=
  (p, e) :: removeAtKey fs p

/-- The inode number carried by an entry. -/
def inoOf : Ent → Nat
  | .dir i => i
  | .file i _ => i

/-- A fresh inode number: the backing store never reuses a live one. -/
def freshIno (fs : FS) : Nat :=
  (fs.foldl (fun m pr => max m (inoOf pr.2)) 0) + 1

/-- Helper for `mkdirAll`, walking the path in reversed form so that the
parent recursion of Go `os.MkdirAll` is structural: stat the full path
first; an existing directory is kept, an existing file is `ENOTDIR`;
otherwise ensure the parent, then create the directory. -/
def mkdirAllRev (fs : FS) : FsPath → Except FsErr FS
  | [] => .ok fs
  | x :: revRest =>
    match entryAt fs ((x :: revRest).reverse) with
    | some (.dir _) => .ok fs
    | some (.file _ _) => .error .enotdir
    | none =>
      match mkdirAllRev fs revRest with
      | .error e => .error e
      | .ok fs₁ =>
        .ok (insertAtKey fs₁ ((x :: revRest).reverse) (.dir (freshIno fs₁)))

/-- Go `os.MkdirAll(path, perm)` on the backing store. -/
def mkdirAll (fs : FS) (p : FsPath) : Except FsErr FS :=
  mkdirAllRev fs p.reverse

/-- Go `os.OpenFile(path, O_CREATE|O_RDWR, mode)` followed by `Close`,
as used by the `ADD_FILE` branch of `handleFileEvent` (sync.go:112-117):
an existing file is left as it is, an existing directory is `EISDIR`, a
missing file is created empty when its parent directory exists. -/
def openCreateEmpty (fs : FS) (p : FsPath) : Except FsErr FS :=
  match entryAt fs p with
  | some (.dir _) => .error .eisdir
  | some (.file _ _) => .ok fs
  | none =>
    match entryAt fs p.dropLast with
    | some (.dir _) => .ok (insertAtKey fs p (.file (freshIno fs) []))
    | some (.file _ _) => .error .enotdir
    | none => .error .enoent

/-- Go `os.Remove(path)`: removes a file or an empty directory; a missing
path is `ENOENT` and a directory with children is `ENOTEMPTY`. -/
def removePath (fs : FS) (p : FsPath) : Except FsErr FS :=
  match entryAt fs p with
  | none => .error .enoent
  | some _ =>
    if childExists fs p then .error .enotempty
    else .ok (removeAtKey fs p)

/-- Rebase every entry at or below `a` onto `b`, dropping whatever was
recorded at or below `b` (the overwritten rename target). -/
def moveTree (fs : FS) (a b : FsPath) : FS :=
  fs.filterMap (fun pr =>
    if leads a pr.1 then some (b ++ pr.1.drop a.length, pr.2)
    else if leads b pr.1 then none
    else some pr)

/-- Go `os.Rename(a, b)` / `rename(2)`: same-path rename succeeds and
changes nothing; moving a tree into itself is `EINVAL`; a target that
contains the source is `ENOTEMPTY`; the target's parent must exist as a
directory; an existing target is overwritten when kinds are compatible
(file over file, directory over empty directory). -/
def renamePath (fs : FS) (a b : FsPath) : Except FsErr FS :=
  match entryAt fs a with
  | none => .error .enoent
  | some ea =>
    if a = b then .ok fs
    else if leads a b then .error .einval
    else if leads b a then .error .enotempty
    else
      match entryAt fs b.dropLast with
      | some (.dir _) =>
        match entryAt fs b with
        | none => .ok (moveTree fs a b)
        | some (.dir _) =>
          match ea with
          | .file _ _ => .error .eisdir
          | .dir _ =>
            if childExists fs b then .error .enotempty
            else .ok (moveTree fs a b)
        | some (.file _ _) =>
          match ea with
          | .dir _ => .error .enotdir
          | .file _ _ => .ok (moveTree fs a b)
      | some (.file _ _) => .error .enotdir
      | none => .error .enoent

/-- Client `Node.Lookup` (part_002:86-108): `Lstat` the path and return
the entry's attributes, or `ENOENT`. -/
def nodeLookup (fs : FS) (p : FsPath) : Except FsErr Ent :=
  match entryAt fs p with
  | some e => .ok e
  | none => .error .enoent

/-- Client `Node.Rename` (part_002:208-280): if the target's parent
directory is missing it is first created with `MkdirAll`, then the
backing entry is moved with `os.Rename`. -/
def nodeRename (fs : FS) (a b : FsPath) : Except FsErr FS :=
  match
    (match entryAt fs b.dropLast with
     | none => mkdirAll fs b.dropLast
     | some _ => .ok fs) with
  | .error e => .error e
  | .ok fs₁ => renamePath fs₁ a b

/-! Section: remote observer event replay (client, `src/client/sync.go`). -/

/-- A server-pushed event as dispatched by `handleFileEvent`, with its
path material already resolved against the local mount root. -/
structure NodeEvent where
  event : EventType
  path : FsPath
  newPath : FsPath
  mode : FileKind
  deriving DecidableEq, Repr

/-- Client `handleFileEvent` (sync.go:94-150).  Every branch logs and
swallows its error, so the function totalizes to the new local state plus
the logged errno, and the observer loop is never terminated by it.  The
`MODIFY_FILE` branch delegates to the differential download, abstracted
here as the parameter `dl`. -/
def handleFileEvent (dl : FS → FsPath → FS × Option FsErr)
    (fs : FS) (ev : NodeEvent) : FS × Option FsErr :=
  match ev.event with
  | .addFile =>
    match ev.mode with
    | .dir =>
      match mkdirAll fs ev.path with
      | .ok fs' => (fs', none)
      | .error e => (fs, some e)
    | .regular =>
      match openCreateEmpty fs ev.path with
      | .ok fs' => (fs', none)
      | .error e => (fs, some e)
    | .other => (fs, none)
  | .modifyFile => dl fs ev.path
  | .renameFile =>
    match renamePath fs ev.path ev.newPath with
    | .ok fs' => (fs', none)
    | .error e => (fs, some e)
  | .deleteFile =>
    match removePath fs ev.path with
    | .ok fs' => (fs', none)
    | .error e => (fs, some e)
  | .unregistered => (fs, none)

/-- The observer loop's effect on local state over a stream of events
(`startRemoteObserver`, sync.go:59-92): each received event is handed to
`handleFileEvent`; handler errors never stop the loop. -/
def replayEvents (dl : FS → FsPath → FS × Option FsErr)
    (fs : FS) (evs : List NodeEvent) : FS :=
  evs.foldl (fun s e => (handleFileEvent dl s e).1) fs

/-! Section: client file handle and mirrored mutations
(`src/client/files.go`, `src/unnamed/part_002`). -/

/-- Go `(*os.File).WriteAt` / `pwrite` semantics on file content: the
region before the offset is kept, a gap past end-of-file reads as zero
bytes, and the data overwrites byte-for-byte at the offset. -/
def pwriteAt (content : List Nat) (off : Nat) (data : List Nat) : List Nat :=
  content.take off ++ List.replicate (off - content.length) 0 ++
    data ++ content.drop (off + data.length)

/-- Client `FileHandle.Write` (files.go:70-97): the local `Pwrite` result
is returned to the kernel; the remote `grpcClient.Write` is fired in a
goroutine whose outcome (`remoteResult`) is only ever logged.  `localErr`
is the backing store's verdict on the local write.  The returned pair is
(kernel-visible result `(bytesWritten, errno?)`, local content). -/
def fileHandleWrite {ε ρ : Type} (content : List Nat) (off : Nat)
    (data : List Nat) (localErr : Option ε) (remoteResult : ρ) :
    (Nat × Option ε) × List Nat :=
  match localErr with
  | some e => ((0, some e), content)
  | none => ((data.length, none), pwriteAt content off data)

/-- Client `Node.Mkdir` (part_002:110-155): `os.MkdirAll` locally and
return its errno; the remote `grpcClient.Mkdir` is fired in a goroutine
whose outcome (`remoteResult`) is only ever logged. -/
def clientMkdir {ρ : Type} (fs : FS) (p : FsPath) (remoteResult : ρ) :
    FS × Option FsErr :=
  match mkdirAll fs p with
  | .ok fs' => (fs', none)
  | .error e => (fs, some e)

/-! Section: server RPC error mapping and the Write handler
(`src/server/grpc.go`). -/

/-- The GRPC status codes used by the embedded handlers. -/
inductive GrpcCode where
  | ok
  | notFound
  | permissionDenied
  | deadlineExceeded
  | alreadyExists
  | internal
  | resourceExhausted
  | invalidArgument
  | unauthenticated
  deriving DecidableEq, Repr

/-- Function `grpcError` (grpc.go:541-570): translate an errno into a GRPC
status code; anything not matched explicitly falls through to `Internal`. -/
def grpcError : FsErr → GrpcCode
  | .enoent => .notFound
  | .eacces => .permissionDenied
  | .eexist => .alreadyExists
  | .eio => .internal
  | .enospc => .resourceExhausted
  | .einval => .invalidArgument
  | .enotdir => .internal
  | .eisdir => .internal
  | .enotempty => .internal

/-- Server `FuseServer.Write` (grpc.go:488-511): open the named path with
`os.OpenFile(fullpath, O_WRONLY, 0755)` — no create flag — then `WriteAt`.
A missing path fails with `ENOENT` (mapped to `NotFound`), a directory
with `EISDIR` (mapped to `Internal` by the default branch of `grpcError`);
in both cases the store is untouched. -/
def serverWrite (fs : FS) (p : FsPath) (off : Nat) (data : List Nat) :
    FS × Except GrpcCode Nat :=
  match entryAt fs p with
  | none => (fs, .error (grpcError .enoent))
  | some (.dir _) => (fs, .error (grpcError .eisdir))
  | some (.file i c) =>
    (insertAtKey fs p (.file i (pwriteAt c off data)), .ok data.length)

/-! Section: authentication interceptors (`src/server/auth.go`). -/

/-- The method-name fragments exempted from authentication
(auth.go:27). -/
def nonProtectedMethods : List GoStr :=
  [strLit "Auth", strLit "CreateOrg", strLit "CreateUser"]

/-- The bypass test of `AuthInterceptor` (auth.go:40-45):
`strings.Contains` of the full method name against each exempt
fragment. -/
def isNonProtectedMethod (fullMethod : GoStr) : Bool :=
  nonProtectedMethods.any (fun m => strContains fullMethod m)

/-- The full method names of the authenticated RPC surface: filesystem
mirror, transfer and notification calls, as registered under the `Fuse`
service of the `proto` package.  The first twelve are unary; the last two
are server-streaming and go through `AuthStreamInterceptor`. -/
def fsMirrorUnaryMethods : List GoStr :=
  [strLit "/proto.Fuse/Attr", strLit "/proto.Fuse/Lookup",
   strLit "/proto.Fuse/ReadDirAll", strLit "/proto.Fuse/Mkdir",
   strLit "/proto.Fuse/Rmdir", strLit "/proto.Fuse/Getattr",
   strLit "/proto.Fuse/Create", strLit "/proto.Fuse/Symlink",
   strLit "/proto.Fuse/Link", strLit "/proto.Fuse/ReadAll",
   strLit "/proto.Fuse/Write", strLit "/proto.Fuse/Rename"]

/-- Result of running an interceptor around a handler over a backing
store of type `σ`: the status returned to the caller, whether the
handler ran, the handler's response when it ran, and the store state
afterwards. -/
structure InterceptRun (σ ρ : Type) where
  status : GrpcCode
  handlerInvoked : Bool
  resp : Option ρ
  store : σ
  deriving DecidableEq, Repr

/-- Interceptor `AuthInterceptor` (auth.go:34-71) run around a `handler`
over store `st`.  `validTok` abstracts `validToken` (JWT validation),
returning the resolved user for a valid token.  `md` is the incoming
call metadata: `none` when no metadata is attached, otherwise the list
of values under the `authorization` key. -/
def authInterceptorRun {σ ρ : Type} (validTok : GoStr → Option GoStr)
    (handler : Option GoStr → σ → σ × ρ) (fullMethod : GoStr)
    (md : Option (List GoStr)) (st : σ) : InterceptRun σ ρ :=
  if isNonProtectedMethod fullMethod then
    let r := handler none st
    ⟨.ok, true, some r.2, r.1⟩
  else
    match md with
    | none => ⟨.unauthenticated, false, none, st⟩
    | some [] => ⟨.unauthenticated, false, none, st⟩
    | some (tok :: _) =>
      match validTok tok with
      | none => ⟨.unauthenticated, false, none, st⟩
      | some user =>
        let r := handler (some user) st
        ⟨.ok, true, some r.2, r.1⟩

/-- Interceptor `AuthStreamInterceptor` (auth.go:83-114) run around a
stream handler: identical token check, with no exempt-method bypass. -/
def authStreamInterceptorRun {σ ρ : Type} (validTok : GoStr → Option GoStr)
    (handler : Option GoStr → σ → σ × ρ)
    (md : Option (List GoStr)) (st : σ) : InterceptRun σ ρ :=
  match md with
  | none => ⟨.unauthenticated, false, none, st⟩
  | some [] => ⟨.unauthenticated, false, none, st⟩
  | some (tok :: _) =>
    match validTok tok with
    | none => ⟨.unauthenticated, false, none, st⟩
    | some user =>
      let r := handler (some user) st
      ⟨.ok, true, some r.2, r.1⟩

/-- No usable authorization token in the metadata: either no metadata, no
`authorization` values, or a first value the validator rejects. -/
def NoValidAuth (validTok : GoStr → Option GoStr) :
    Option (List GoStr) → Prop
  | none => True
  | some [] => True
  | some (t :: _) => validTok t = none

/-! Section: differential transfer protocol
(server `DownloadFile`, grpc.go:138-213; client receive loops,
sync.go:197-265 and part_000:190-253). -/

/-- A `proto.FileChunk`: payload, its offset, and the announced total
file size. -/
structure Chunk where
  data : List Nat
  off : Nat
  total : Nat
  deriving DecidableEq, Repr

/-- The fixed read-buffer size of the server send loop (64 KiB). -/
def chunkSize : Nat := 64 * 1024

/-- The server send loop (grpc.go:179-210) with explicit fuel (one unit
per chunk; the caller passes the content length, which bounds the chunk
count since every sent chunk is nonempty): read up to `chunkSize` bytes,
send them at the running offset with the stat-reported total size,
repeat until end of file. -/
def chunksFuel : Nat → List Nat → Nat → Nat → List Chunk
  | 0, _, _, _ => []
  | fuel + 1, rem, sent, total =>
    match rem with
    | [] => []
    | _ :: _ =>
      let piece := rem.take chunkSize
      ⟨piece, sent, total⟩ ::
        chunksFuel fuel (rem.drop chunkSize) (sent + piece.length) total

/-- The chunk sequence the server streams for a file body. -/
def serverChunks (content : List Nat) : List Chunk :=
  chunksFuel content.length content 0 content.length

/-- Server `FuseServer.DownloadFile` (grpc.go:138-213): hash the server
copy with the digest `h`; if it equals the client's announced hash, send
nothing (the no-change case); otherwise stream the file in chunks. -/
def serverDownload (h : List Nat → GoStr) (serverContent : List Nat)
    (expectedHash : GoStr) : List Chunk :=
  if h serverContent = expectedHash then []
  else serverChunks serverContent

/-- State of the client receive loop: current file content, the
first-seen announced total (`none` models the `-1` sentinel), and the
running count of bytes written. -/
structure RecvState where
  content : List Nat
  totalExpected : Option Nat
  recvBytes : Nat
  deriving DecidableEq, Repr

/-- One iteration of the client receive loop (sync.go:234-251,
identically part_000:224-241): latch the first-seen total, write the
payload at its offset, and add the written byte count. -/
def recvChunk (st : RecvState) (c : Chunk) : RecvState :=
  { content := pwriteAt st.content c.off c.data
    totalExpected :=
      match st.totalExpected with
      | none => some c.total
      | some t => some t
    recvBytes := st.recvBytes + c.data.length }

/-- The full receive loop over a delivered chunk stream, starting from
the local content `init`. -/
def recvAll (init : List Nat) (chunks : List Chunk) : RecvState :=
  chunks.foldl recvChunk ⟨init, none, 0⟩

/-- The announced total of the first delivered chunk. -/
def firstTotalSize (chunks : List Chunk) : Option Nat :=
  chunks.head?.map (·.total)

/-- The download protocol errors the client reports. -/
inductive DlErr where
  | sizeMismatch : Nat → Nat → DlErr
  deriving DecidableEq, Repr

deriving instance DecidableEq for Except

/-- The completion check after the receive loop (sync.go:253-261,
identically part_000:243-251): no first-seen total or zero bytes written
is treated as the no-change case; otherwise a byte count differing from
the announced total is a size mismatch. -/
def downloadFinish (st : RecvState) : Except DlErr Unit :=
  match st.totalExpected with
  | none => .ok ()
  | some t =>
    if st.recvBytes = 0 then .ok ()
    else if st.recvBytes ≠ t then .error (.sizeMismatch t st.recvBytes)
    else .ok ()

/-- Client `downloadFile` (sync.go:197-265), whole exchange against a
server holding `serverContent`: hash the current local content (the file
is opened **without** `O_TRUNC` and the digest of the streamed file body
is used), request the download, run the receive loop, and finish.
Returns the final local content and the protocol verdict. -/
def clientDownloadFile (h : List Nat → GoStr)
    (localContent serverContent : List Nat) :
    List Nat × Except DlErr Unit :=
  let localFileHash := h localContent
  let chunks := serverDownload h serverContent localFileHash
  let st := recvAll localContent chunks
  (st.content, downloadFinish st)

/-- Observable transcript of one `downloadRemoteFile` exchange. -/
structure DlExchange where
  hashedContent : List Nat
  sentHash : GoStr
  chunks : List Chunk
  finalContent : List Nat
  result : Except DlErr Unit
  deriving DecidableEq, Repr

/-- Client `downloadRemoteFile` (part_000:190-253), whole exchange: the
local file is opened with `O_CREATE|O_RDWR|O_TRUNC`, so its content is
truncated to empty **before** hashing; the digest actually sent is
`md5.Sum(nil)` — the hash of the empty byte string — while the streamed
`hash` object is discarded.  The receive loop and completion check are
the same as `downloadFile`'s. -/
def downloadRemoteFileRun (h : List Nat → GoStr)
    (localContent serverContent : List Nat) : DlExchange :=
  let afterOpen : List Nat := []
  let sentHash := h []
  let chunks := serverDownload h serverContent sentHash
  let st := recvAll afterOpen chunks
  ⟨afterOpen, sentHash, chunks, st.content, downloadFinish st⟩

/-! Section: basic lemmas about the string primitives. -/

theorem leads_nil {α : Type} [DecidableEq α] (l : List α) :
    leads ([] : List α) l = true := by
  cases l <;> rfl

theorem leads_append {α : Type} [DecidableEq α] (p q : List α) :
    leads p (p ++ q) = true := by
  induction p with
  | nil => exact leads_nil q
  | cons x xs ih => simp [leads, ih]

theorem leads_iff_append {α : Type} [DecidableEq α] (p l : List α) :
    leads p l = true ↔ ∃ q, l = p ++ q := by
  constructor
  · intro hp
    induction p generalizing l with
    | nil => exact ⟨l, rfl⟩
    | cons x xs ih =>
      cases l with
      | nil => simp [leads] at hp
      | cons y ys =>
        by_cases hxy : x = y
        · subst hxy
          simp [leads] at hp
          obtain ⟨q, hq⟩ := ih ys hp
          exact ⟨q, by simp [hq]⟩
        · simp [leads, hxy] at hp
  · rintro ⟨q, rfl⟩
    exact leads_append p q

theorem strContains_of_leads (s sub : GoStr) (hp : leads sub s = true) :
    strContains s sub = true := by
  cases s <;> simp [strContains, hp]

/-- Membership in the `getObservers` result, characterized: a channel is
selected precisely when some registry entry whose root is a substring of
the event path carries it. -/
theorem mem_getObservers (reg : ObserverRegistry) (path : GoStr) (c : Nat) :
    c ∈ getObservers reg path ↔
      ∃ root chans, (root, chans) ∈ reg ∧
        strContains path root = true ∧ c ∈ chans := by
  suffices h : ∀ acc : List Nat,
      c ∈ reg.foldl
        (fun clients pr =>
          if strContains path pr.1 then clients ++ pr.2 else clients) acc ↔
      c ∈ acc ∨ ∃ root chans, (root, chans) ∈ reg ∧
        strContains path root = true ∧ c ∈ chans by
    have := h []
    simpa [getObservers] using this
  induction reg with
  | nil => intro acc; simp
  | cons pr rest ih =>
    intro acc
    simp only [List.foldl_cons]
    rw [ih]
    by_cases hc : strContains path pr.1 = true
    · simp only [hc, if_pos]
      constructor
      · rintro (hmem | ⟨root, chans, hmem, hcont, hch⟩)
        · rcases List.mem_append.mp hmem with h1 | h2
          · exact Or.inl h1
          · exact Or.inr ⟨pr.1, pr.2, by simp, hc, h2⟩
        · exact Or.inr ⟨root, chans, List.mem_cons_of_mem _ hmem, hcont, hch⟩
      · rintro (hmem | ⟨root, chans, hmem, hcont, hch⟩)
        · exact Or.inl (List.mem_append.mpr (Or.inl hmem))
        · rcases List.mem_cons.mp hmem with heq | htail
          · refine Or.inl (List.mem_append.mpr (Or.inr ?_))
            have h1 : pr.2 = chans := by
              have := congrArg Prod.snd heq; simpa using this.symm
            rw [h1]; exact hch
          · exact Or.inr ⟨root, chans, htail, hcont, hch⟩
    · simp only [hc]
      rw [if_neg (by simp [hc])]
      constructor
      · rintro (hmem | ⟨root, chans, hmem, hcont, hch⟩)
        · exact Or.inl hmem
        · exact Or.inr ⟨root, chans, List.mem_cons_of_mem _ hmem, hcont, hch⟩
      · rintro (hmem | ⟨root, chans, hmem, hcont, hch⟩)
        · exact Or.inl hmem
        · rcases List.mem_cons.mp hmem with heq | htail
          · exfalso
            have h1 : pr.1 = root := by
              have := congrArg Prod.fst heq; simpa using this.symm
            rw [h1] at hc; exact hc hcont
          · exact Or.inr ⟨root, chans, htail, hcont, hch⟩

theorem leads_refl {α : Type} [DecidableEq α] (l : List α) :
    leads l l = true := by
  induction l with
  | nil => rfl
  | cons x xs ih => simp [leads, ih]

theorem trimLead_nil (pre : GoStr) : trimLead [] pre = [] := by
  unfold trimLead
  split <;> simp

/-! Section: lemmas about the filesystem model. -/

theorem entryAt_nil_path (fs : FS) : entryAt fs [] = some (.dir 0) := by
  simp [entryAt]

theorem entryAt_insertAtKey_self (fs : FS) (p : FsPath) (e : Ent)
    (hp : p ≠ []) : entryAt (insertAtKey fs p e) p = some e := by
  unfold entryAt insertAtKey
  rw [if_neg hp]
  rw [List.find?_cons_of_pos _ (by simp)]
  rfl

theorem find?_removeAtKey_ne (fs : FS) (p q : FsPath) (hq : q ≠ p) :
    List.find? (fun pr => decide (pr.1 = q)) (removeAtKey fs p) =
      List.find? (fun pr => decide (pr.1 = q)) fs := by
  unfold removeAtKey
  induction fs with
  | nil => rfl
  | cons pr t ih =>
    by_cases hpp : pr.1 = p
    · rw [List.filter_cons_of_neg (by simp [hpp])]
      rw [List.find?_cons_of_neg _
        (by simp [hpp]; exact fun h => hq h.symm)]
      exact ih
    · rw [List.filter_cons_of_pos (by simp [hpp])]
      by_cases hpq : pr.1 = q
      · rw [List.find?_cons_of_pos _ (by simp [hpq]),
          List.find?_cons_of_pos _ (by simp [hpq])]
      · rw [List.find?_cons_of_neg _ (by simp [hpq]),
          List.find?_cons_of_neg _ (by simp [hpq])]
        exact ih

theorem entryAt_insertAtKey_ne (fs : FS) (p q : FsPath) (e : Ent)
    (hq : q ≠ p) : entryAt (insertAtKey fs p e) q = entryAt fs q := by
  by_cases hq0 : q = []
  · subst hq0; simp [entryAt]
  · unfold entryAt insertAtKey
    rw [if_neg hq0, if_neg hq0]
    rw [List.find?_cons_of_neg _
      (by simp; exact fun h => hq h.symm)]
    rw [find?_removeAtKey_ne fs p q hq]

theorem entryAt_removeAtKey_self (fs : FS) (p : FsPath) (hp : p ≠ []) :
    entryAt (removeAtKey fs p) p = none := by
  unfold entryAt removeAtKey
  rw [if_neg hp]
  rw [List.find?_eq_none.mpr]
  · rfl
  · intro pr hpr
    have := (List.mem_filter.mp hpr).2
    simp at this ⊢
    exact this

theorem childExists_removeAtKey (fs : FS) (p q : FsPath)
    (h : childExists (removeAtKey fs q) p = true) :
    childExists fs p = true := by
  unfold childExists at h ⊢
  rw [List.any_eq_true] at h ⊢
  obtain ⟨pr, hmem, hpr⟩ := h
  exact ⟨pr, (List.mem_filter.mp hmem).1, hpr⟩

theorem mkdirAllRev_ok_dir (fs fs' : FS) (r : FsPath)
    (h : mkdirAllRev fs r = .ok fs') :
    ∃ i, entryAt fs' r.reverse = some (.dir i) := by
  cases r with
  | nil =>
    unfold mkdirAllRev at h
    cases h
    exact ⟨0, entryAt_nil_path _⟩
  | cons x rest =>
    unfold mkdirAllRev at h
    split at h
    · next i heq =>
      cases h
      exact ⟨i, heq⟩
    · next heq => cases h
    · next heq =>
      split at h
      · next => cases h
      · next fs₁ hrec =>
        cases h
        refine ⟨freshIno fs₁, ?_⟩
        exact entryAt_insertAtKey_self fs₁ _ _ (by simp)

theorem mkdirAll_ok_dir (fs fs' : FS) (p : FsPath)
    (h : mkdirAll fs p = .ok fs') :
    ∃ i, entryAt fs' p = some (.dir i) := by
  have := mkdirAllRev_ok_dir fs fs' p.reverse h
  rwa [List.reverse_reverse] at this

theorem mkdirAll_idem (fs fs' : FS) (p : FsPath)
    (h : mkdirAll fs p = .ok fs') : mkdirAll fs' p = .ok fs' := by
  obtain ⟨i, hi⟩ := mkdirAll_ok_dir fs fs' p h
  unfold mkdirAll
  cases hr : p.reverse with
  | nil => rfl
  | cons x rest =>
    unfold mkdirAllRev
    have hpp : (x :: rest).reverse = p := by
      rw [← hr, List.reverse_reverse]
    rw [hpp, hi]

theorem mkdirAllRev_keeps (fs fs₁ : FS) (r q : FsPath) (e : Ent)
    (h : mkdirAllRev fs r = .ok fs₁) (he : entryAt fs q = some e) :
    entryAt fs₁ q = some e := by
  induction r generalizing fs₁ with
  | nil =>
    unfold mkdirAllRev at h
    cases h
    exact he
  | cons x rest ih =>
    unfold mkdirAllRev at h
    split at h
    · next => cases h; exact he
    · next => cases h
    · next heq =>
      split at h
      · next => cases h
      · next fs₂ hrec =>
        cases h
        have h₂ := ih fs₂ hrec
        by_cases hq : q = (x :: rest).reverse
        · subst hq
          rw [he] at heq
          cases heq
        · rw [entryAt_insertAtKey_ne _ _ _ _ hq]
          exact h₂

theorem mkdirAll_keeps (fs fs₁ : FS) (p q : FsPath) (e : Ent)
    (h : mkdirAll fs p = .ok fs₁) (he : entryAt fs q = some e) :
    entryAt fs₁ q = some e :=
  mkdirAllRev_keeps fs fs₁ p.reverse q e h he

theorem openCreateEmpty_ok_file (fs fs' : FS) (p : FsPath)
    (h : openCreateEmpty fs p = .ok fs') :
    ∃ i c, entryAt fs' p = some (.file i c) := by
  unfold openCreateEmpty at h
  split at h
  · next => cases h
  · next i c heq => cases h; exact ⟨i, c, heq⟩
  · next heq =>
    have hp : p ≠ [] := by
      intro hnil
      rw [hnil, entryAt_nil_path] at heq
      cases heq
    split at h
    · next =>
      cases h
      exact ⟨freshIno fs, [], entryAt_insertAtKey_self fs p _ hp⟩
    · next => cases h
    · next => cases h

theorem openCreateEmpty_idem (fs fs' : FS) (p : FsPath)
    (h : openCreateEmpty fs p = .ok fs') :
    openCreateEmpty fs' p = .ok fs' := by
  obtain ⟨i, c, hi⟩ := openCreateEmpty_ok_file fs fs' p h
  unfold openCreateEmpty
  rw [hi]

theorem removePath_idem (fs fs' : FS) (p : FsPath)
    (h : removePath fs p = .ok fs') :
    removePath fs' p = .ok fs' ∨ removePath fs' p = .error .enoent := by
  unfold removePath at h
  split at h
  · next => cases h
  · next e heq =>
    split at h
    · cases h
    · next hch =>
      cases h
      by_cases hp : p = []
      · subst hp
        left
        have hempty : removeAtKey fs [] = [] := by
          rw [List.eq_nil_iff_forall_not_mem]
          intro pr hpr
          rw [removeAtKey, List.mem_filter] at hpr
          obtain ⟨hmem, hne⟩ := hpr
          simp only [ne_eq, decide_not, Bool.not_eq_eq_eq_not,
            Bool.not_true, decide_eq_false_iff_not, Decidable.not_not]
            at hne
          have : childExists fs [] = true := by
            unfold childExists
            rw [List.any_eq_true]
            refine ⟨pr, hmem, ?_⟩
            simp [leads_nil, hne]
          simp [this] at hch
        rw [hempty]
        rfl
      · right
        unfold removePath
        rw [entryAt_removeAtKey_self fs p hp]

theorem moveTree_no_source (fs : FS) (a b : FsPath)
    (h1 : leads a b = false) (h2 : leads b a = false) (ha : a ≠ []) :
    entryAt (moveTree fs a b) a = none := by
  unfold entryAt
  rw [if_neg ha]
  rw [List.find?_eq_none.mpr]
  · rfl
  · intro x hx
    simp only [decide_eq_true_eq]
    intro hxa
    rw [moveTree, List.mem_filterMap] at hx
    obtain ⟨pr, _, hpr⟩ := hx
    by_cases hla : leads a pr.1 = true
    · rw [if_pos hla] at hpr
      cases hpr
      have : leads b (b ++ List.drop a.length pr.1) = true :=
        leads_append b _
      rw [show b ++ List.drop a.length pr.1 = a from hxa] at this
      rw [this] at h2
      cases h2
    · rw [if_neg hla] at hpr
      by_cases hlb : leads b pr.1 = true
      · rw [if_pos hlb] at hpr
        cases hpr
      · rw [if_neg hlb] at hpr
        cases hpr
        rw [hxa, leads_refl] at hla
        exact hla rfl

theorem find?_moveTree_target (fs : FS) (a b : FsPath)
    (h1 : leads a b = false) (h2 : leads b a = false) :
    List.find? (fun pr => decide (pr.1 = b)) (moveTree fs a b) =
      (List.find? (fun pr => decide (pr.1 = a)) fs).map
        (fun pr => (b, pr.2)) := by
  have hab : a ≠ b := by
    intro he
    rw [he, leads_refl] at h1
    cases h1
  induction fs with
  | nil => rfl
  | cons pr t ih =>
    unfold moveTree
    rw [List.filterMap_cons]
    by_cases hla : leads a pr.1 = true
    · rw [if_pos hla]
      by_cases hpa : pr.1 = a
      · have hkey : b ++ List.drop a.length pr.1 = b := by
          rw [hpa, List.drop_length, List.append_nil]
        rw [List.find?_cons_of_pos _ (by simp [hkey]),
          List.find?_cons_of_pos _ (by simp [hpa])]
        simp [hkey]
      · have hkey : b ++ List.drop a.length pr.1 ≠ b := by
          obtain ⟨s, hs⟩ := (leads_iff_append a pr.1).mp hla
          intro hcontra
          rw [hs, List.drop_left] at hcontra
          have hs0 : s = [] := by
            have := congrArg List.length hcontra
            simpa using this
          rw [hs0, List.append_nil] at hs
          exact hpa hs
        rw [List.find?_cons_of_neg _ (by simp [hkey]),
          List.find?_cons_of_neg _ (by simp [hpa])]
        exact ih
    · rw [if_neg hla]
      by_cases hlb : leads b pr.1 = true
      · rw [if_pos hlb]
        have hpa : pr.1 ≠ a := by
          intro he
          rw [he] at hlb
          rw [hlb] at h2
          cases h2
        rw [List.find?_cons_of_neg _ (by simp [hpa])]
        exact ih
      · rw [if_neg hlb]
        have hpb : pr.1 ≠ b := by
          intro he
          rw [he, leads_refl] at hlb
          exact hlb rfl
        have hpa : pr.1 ≠ a := by
          intro he
          rw [he, leads_refl] at hla
          exact hla rfl
        rw [List.find?_cons_of_neg _ (by simp [hpb]),
          List.find?_cons_of_neg _ (by simp [hpa])]
        exact ih

theorem entryAt_moveTree_target (fs : FS) (a b : FsPath) (ea : Ent)
    (h1 : leads a b = false) (h2 : leads b a = false)
    (ha : entryAt fs a = some ea) :
    entryAt (moveTree fs a b) b = some ea := by
  have hb : b ≠ [] := by
    intro he
    rw [he, leads_nil] at h2
    cases h2
  have ha0 : a ≠ [] := by
    intro he
    rw [he, leads_nil] at h1
    cases h1
  unfold entryAt at ha ⊢
  rw [if_neg ha0] at ha
  rw [if_neg hb]
  rw [find?_moveTree_target fs a b h1 h2]
  cases hf : List.find? (fun pr => decide (pr.1 = a)) fs with
  | none => rw [hf] at ha; cases ha
  | some pr =>
    rw [hf] at ha
    simp at ha
    simp [ha]

theorem renamePath_ok_elim (fs fs' : FS) (a b : FsPath)
    (hne : a ≠ b) (h : renamePath fs a b = .ok fs') :
    leads a b = false ∧ leads b a = false ∧ fs' = moveTree fs a b ∧
      ∃ ea, entryAt fs a = some ea := by
  unfold renamePath at h
  split at h
  · next => cases h
  · next ea heq =>
    rw [if_neg hne] at h
    by_cases h1 : leads a b = true
    · rw [if_pos h1] at h; cases h
    · rw [if_neg h1] at h
      by_cases h2 : leads b a = true
      · rw [if_pos h2] at h; cases h
      · rw [if_neg h2] at h
        refine ⟨by simpa using h1, by simpa using h2, ?_, ea, heq⟩
        split at h
        · split at h
          · cases h; rfl
          · next =>
            split at h
            · cases h
            · split at h
              · cases h
              · cases h; rfl
          · next =>
            split at h
            · cases h
            · cases h; rfl
        · cases h
        · cases h

theorem renamePath_idem (fs fs' : FS) (a b : FsPath)
    (h : renamePath fs a b = .ok fs') :
    renamePath fs' a b = .ok fs' ∨
      renamePath fs' a b = .error .enoent := by
  by_cases hab : a = b
  · subst hab
    left
    have hfs : fs' = fs := by
      unfold renamePath at h
      split at h
      · cases h
      · simp at h
        exact h.symm
    subst hfs
    exact h
  · right
    obtain ⟨h1, h2, hmv, ⟨ea, _⟩⟩ := renamePath_ok_elim fs fs' a b hab h
    have ha0 : a ≠ [] := by
      intro he
      rw [he, leads_nil] at h1
      cases h1
    have : entryAt fs' a = none := by
      rw [hmv]
      exact moveTree_no_source fs a b h1 h2 ha0
    unfold renamePath
    rw [this]

theorem handleFileEvent_idem (dl : FS → FsPath → FS × Option FsErr)
    (fs : FS) (ev : NodeEvent)
    (hk : ev.event = .addFile ∨ ev.event = .deleteFile ∨
      ev.event = .renameFile) :
    (handleFileEvent dl (handleFileEvent dl fs ev).1 ev).1 =
      (handleFileEvent dl fs ev).1 := by
  rcases hk with hk | hk | hk
  · -- ADD_FILE
    cases hm : ev.mode with
    | dir =>
      cases h : mkdirAll fs ev.path with
      | ok fs' =>
        simp only [handleFileEvent, hk, hm, h]
        rw [mkdirAll_idem fs fs' ev.path h]
      | error e =>
        simp only [handleFileEvent, hk, hm, h]
    | regular =>
      cases h : openCreateEmpty fs ev.path with
      | ok fs' =>
        simp only [handleFileEvent, hk, hm, h]
        rw [openCreateEmpty_idem fs fs' ev.path h]
      | error e =>
        simp only [handleFileEvent, hk, hm, h]
    | other =>
      simp only [handleFileEvent, hk, hm]
  · -- DELETE_FILE
    cases h : removePath fs ev.path with
    | ok fs' =>
      simp only [handleFileEvent, hk, h]
      rcases removePath_idem fs fs' ev.path h with h2 | h2 <;> rw [h2]
    | error e =>
      simp only [handleFileEvent, hk, h]
  · -- RENAME_FILE
    cases h : renamePath fs ev.path ev.newPath with
    | ok fs' =>
      simp only [handleFileEvent, hk, h]
      rcases renamePath_idem fs fs' ev.path ev.newPath h with h2 | h2 <;>
        rw [h2]
    | error e =>
      simp only [handleFileEvent, hk, h]

/-! Section: lemmas about the transfer protocol receive loop. -/

theorem foldl_recvChunk_totalExpected (cs : List Chunk) (st : RecvState)
    (t : Nat) (h : st.totalExpected = some t) :
    (List.foldl recvChunk st cs).totalExpected = some t := by
  induction cs generalizing st with
  | nil => exact h
  | cons c cs ih =>
    rw [List.foldl_cons]
    apply ih
    simp [recvChunk, h]

theorem recvAll_first_total (init : List Nat) (chunks : List Chunk)
    (hne : chunks ≠ []) :
    (recvAll init chunks).totalExpected = firstTotalSize chunks := by
  cases chunks with
  | nil => cases hne rfl
  | cons c cs =>
    unfold recvAll firstTotalSize
    rw [List.foldl_cons]
    rw [foldl_recvChunk_totalExpected cs _ c.total (by simp [recvChunk])]
    rfl

theorem serverChunks_ne_nil (c : List Nat) (hc : c ≠ []) :
    serverChunks c ≠ [] := by
  cases c with
  | nil => cases hc rfl
  | cons x rest =>
    unfold serverChunks
    rw [List.length_cons]
    unfold chunksFuel
    simp

/-! Section: theorems for the claims about the event bus. -/

/-- C3, counterexample: `getObservers` selects a subscriber registered at
`/orgA/deptB` for an event under the sibling directory `/orgA/deptB10`,
although the registered root is not a path-segment prefix of the event
path — so selection is not "exactly" segment-prefix containment. -/
theorem getObservers_not_segment_containment :
    getObservers [(strLit "/orgA/deptB", [1])] (strLit "/orgA/deptB10/x")
      = [1] ∧
    specSegmentContainment (strLit "/orgA/deptB") (strLit "/orgA/deptB10/x")
      = false := by
  constructor <;> decide

/-- C3 (amended): `getObservers` selects a subscriber exactly when its
registered root is a substring (Go `strings.Contains`) of the published
path.  In particular an event under `/orgA/deptB/x/y` reaches a
subscriber registered at `/orgA/deptB`, and an event under `/orgA/deptB`
is not delivered to a subscriber registered at the unrelated root
`/orgC/deptD`; but substring matching is strictly coarser than
path-segment prefix containment. -/
theorem getObservers_selects_iff_substring :
    (∀ (reg : ObserverRegistry) (path : GoStr) (c : Nat),
      c ∈ getObservers reg path ↔
        ∃ root chans, (root, chans) ∈ reg ∧
          strContains path root = true ∧ c ∈ chans) ∧
    getObservers [(strLit "/orgA/deptB", [1])] (strLit "/orgA/deptB/x/y")
      = [1] ∧
    getObservers [(strLit "/orgC/deptD", [2])] (strLit "/orgA/deptB")
      = [] := by
  refine ⟨mem_getObservers, by decide, by decide⟩

/-- C9: a mutation whose path (or rename new-path) has a base name
beginning with a dot publishes no `FileEvent` to the broadcast channel.
The hypotheses `hp`/`hnp` record that relativizing against the backing
root and mountpoint does not change the base names, which holds for
every full path the node adapters pass in (they join the backing root
with a root-relative path). -/
theorem notifyObservers_drops_hidden_files
    (realpath mountpoint : GoStr) (event : EventType)
    (path newpath : GoStr) (mode : FileKind)
    (hp : pathBase (relativePath realpath mountpoint path) = pathBase path)
    (hnp : pathBase (relativePath realpath mountpoint newpath)
      = pathBase newpath)
    (hdot : isTempFile (pathBase path) = true ∨
      isTempFile (pathBase newpath) = true) :
    notifyObservers realpath mountpoint event path newpath mode = none := by
  unfold notifyObservers
  dsimp only
  rw [hp, hnp]
  rcases hdot with hdot | hdot <;> simp [hdot]

/-- C9, witness: a rename whose new-path base name is the editor swap
file `.b.swp` publishes nothing. -/
theorem notifyObservers_drops_hidden_files_witness :
    notifyObservers (strLit "/data") [] .renameFile
      (strLit "/data/docs/a.txt") (strLit "/data/docs/.b.swp") .regular
      = none :=
  notifyObservers_drops_hidden_files (strLit "/data") [] .renameFile
    (strLit "/data/docs/a.txt") (strLit "/data/docs/.b.swp") .regular
    (by decide) (by decide) (Or.inr (by decide))

/-- C6: the server node's `Mkdir` never publishes any event at all.  Its
publication call passes the empty string as new-path, `filepath.Base` of
the empty string is `"."`, and `notifyObservers` treats that as a
temporary file and drops the event — for every path and mode, hidden or
not.  (`Create` and `Rmdir` publish through calls of the same shape and
are dropped identically, and `Unlink`, part_008:187-195, contains no
publication call at all.)  This contradicts the claim that every
mutating operation publishes a `FileEvent` after the local mutation
succeeds. -/
theorem serverMkdir_publishes_nothing
    (realpath mountpoint fullpath : GoStr) (mode : FileKind) :
    serverMkdirNotification realpath mountpoint fullpath mode = none := by
  unfold serverMkdirNotification notifyObservers
  have hnil : relativePath realpath mountpoint [] = [] := by
    unfold relativePath
    rw [trimLead_nil, trimLead_nil]
  rw [hnil]
  simp [pathBase, isTempFile, leads]

/-! Section: theorems for the claims about authentication. -/

/-- C5: a filesystem-mirror RPC (any unary method outside the
`Auth`/`CreateOrg`/`CreateUser` group) whose metadata carries no
authorization token, or an invalid one, is rejected with
`Unauthenticated`; the handler is never invoked and the backing store is
left untouched.  The same holds for the streaming interceptor guarding
`DownloadFile` and `ObserveFileChanges`, which has no exempt methods at
all. -/
theorem interceptors_reject_unauthenticated {σ ρ : Type}
    (validTok : GoStr → Option GoStr)
    (handler shandler : Option GoStr → σ → σ × ρ)
    (fullMethod : GoStr) (md : Option (List GoStr)) (st : σ)
    (hm : fullMethod ∈ fsMirrorUnaryMethods)
    (hmd : NoValidAuth validTok md) :
    authInterceptorRun validTok handler fullMethod md st =
      ⟨.unauthenticated, false, none, st⟩ ∧
    authStreamInterceptorRun validTok shandler md st =
      ⟨.unauthenticated, false, none, st⟩ := by
  have hbypass : isNonProtectedMethod fullMethod = false := by
    fin_cases hm <;> decide
  constructor
  · unfold authInterceptorRun
    rw [hbypass]
    simp only [Bool.false_eq_true, if_false]
    match md with
    | none => rfl
    | some [] => rfl
    | some (t :: r) =>
      dsimp only [NoValidAuth] at hmd
      dsimp only
      rw [hmd]
  · unfold authStreamInterceptorRun
    match md with
    | none => rfl
    | some [] => rfl
    | some (t :: r) =>
      dsimp only [NoValidAuth] at hmd
      dsimp only
      rw [hmd]

/-- C5, witness: an unauthenticated `Mkdir` call (no metadata) against a
counter-valued store is rejected by both interceptors without running
the handler or touching the store. -/
theorem interceptors_reject_unauthenticated_witness :
    authInterceptorRun (σ := Nat) (ρ := Unit) (fun _ => none)
      (fun _ n => (n + 1, ())) (strLit "/proto.Fuse/Mkdir") none 0 =
      ⟨.unauthenticated, false, none, 0⟩ ∧
    authStreamInterceptorRun (σ := Nat) (ρ := Unit) (fun _ => none)
      (fun _ n => (n + 1, ())) none 0 =
      ⟨.unauthenticated, false, none, 0⟩ :=
  interceptors_reject_unauthenticated (fun _ => none)
    (fun _ n => (n + 1, ())) (fun _ n => (n + 1, ()))
    (strLit "/proto.Fuse/Mkdir") none 0 (by decide) trivial

/-! Section: theorems for the claims about client-side mirroring. -/

/-- C7: the result a client-side mutating operation returns to the
kernel, and the local state it leaves behind, are a function of the
local backing-store outcome only — two runs of `FileHandle.Write` or of
`Node.Mkdir` that differ solely in the outcome of the fire-and-forget
remote mirror call are identical. -/
theorem mutation_ignores_remote_outcome {ε ρ : Type}
    (content : List Nat) (off : Nat) (data : List Nat)
    (localErr : Option ε) (fs : FS) (p : FsPath) (r₁ r₂ : ρ) :
    fileHandleWrite content off data localErr r₁ =
      fileHandleWrite content off data localErr r₂ ∧
    clientMkdir fs p r₁ = clientMkdir fs p r₂ :=
  ⟨rfl, rfl⟩

/-! Section: theorems for the claims about the server Write handler. -/

/-- C10, counterexample: a path naming an existing *directory* also
"does not name an existing file", yet `FuseServer.Write` fails on it
with `EISDIR`, which `grpcError` maps to `Internal`, not `NotFound`. -/
theorem serverWrite_directory_not_notFound :
    serverWrite [([("d" : String)], .dir 1)] [("d" : String)] 0 [7] =
      ([([("d" : String)], .dir 1)], .error .internal) ∧
    GrpcCode.internal ≠ GrpcCode.notFound := by
  constructor <;> decide

/-- C10 (amended): `FuseServer.Write` never creates a file — the target
is opened write-only without `O_CREATE` — so for every path naming no
existing entry it returns `NotFound` and leaves the backing store
unchanged. -/
theorem serverWrite_missing_is_notFound (fs : FS) (p : FsPath)
    (off : Nat) (data : List Nat) (habs : entryAt fs p = none) :
    serverWrite fs p off data = (fs, .error .notFound) := by
  unfold serverWrite
  rw [habs]
  rfl

/-- C10, witness: writing to `nope.txt` in an empty store. -/
theorem serverWrite_missing_is_notFound_witness :
    entryAt [] [("nope.txt" : String)] = none ∧
    serverWrite [] [("nope.txt" : String)] 0 [1, 2] =
      ([], .error .notFound) :=
  ⟨by decide,
   serverWrite_missing_is_notFound [] [("nope.txt" : String)] 0 [1, 2]
     (by decide)⟩


/-! Section: theorems for the claims about event replay and rename. -/

/-- C4: applying the same `add`/`delete`/`rename` FileEvent twice through
the Remote Observer's event handler produces the same local filesystem
end state as applying it once, and the second application does not
terminate or error out the observer loop — the replay over a stream
containing the duplicated event equals the replay over the stream with a
single occurrence, for every surrounding stream and every starting
state (handler errors are logged and swallowed, never propagated to the
loop). -/
theorem fileEvent_replay_idempotent
    (dl : FS → FsPath → FS × Option FsErr) (fs : FS) (ev : NodeEvent)
    (hk : ev.event = .addFile ∨ ev.event = .deleteFile ∨
      ev.event = .renameFile) (pre post : List NodeEvent) :
    replayEvents dl fs (pre ++ ev :: ev :: post) =
      replayEvents dl fs (pre ++ ev :: post) := by
  unfold replayEvents
  rw [List.foldl_append, List.foldl_append]
  simp only [List.foldl_cons]
  rw [handleFileEvent_idem dl _ ev hk]

/-- C4, witness: replaying two identical directory-add events on an
empty store ends in the same state as replaying one. -/
theorem fileEvent_replay_idempotent_witness :
    replayEvents (fun s _ => (s, none)) []
      [⟨.addFile, [("X" : String)], [], .dir⟩,
       ⟨.addFile, [("X" : String)], [], .dir⟩] =
    replayEvents (fun s _ => (s, none)) []
      [⟨.addFile, [("X" : String)], [], .dir⟩] :=
  fileEvent_replay_idempotent (fun s _ => (s, none)) []
    ⟨.addFile, [("X" : String)], [], .dir⟩ (Or.inl rfl) [] []

/-- C8, counterexample: `Rename(a, a)` on an existing entry succeeds (a
POSIX same-entry rename changes nothing), and afterwards `Lookup(a)`
still finds the entry rather than `NotFound` — so the claim fails
without requiring the target to differ from the source. -/
theorem nodeRename_self_counterexample :
    nodeRename [([("f" : String)], .file 7 [])] [("f" : String)]
        [("f" : String)] =
      .ok [([("f" : String)], .file 7 [])] ∧
    nodeLookup [([("f" : String)], .file 7 [])] [("f" : String)] =
      .ok (.file 7 []) := by
  constructor <;> decide

/-- C8 (amended): for every existing entry `a`, after a successful
`Rename(a, b)` with `b ≠ a`, `Lookup(a)` yields `NotFound` and
`Lookup(b)` yields the attributes the entry had before the rename,
including the same inode number. -/
theorem nodeRename_lookup (fs fs' : FS) (a b : FsPath) (ea : Ent)
    (hne : a ≠ b) (ha : entryAt fs a = some ea)
    (hok : nodeRename fs a b = .ok fs') :
    nodeLookup fs' a = .error .enoent ∧ nodeLookup fs' b = .ok ea := by
  unfold nodeRename at hok
  have hmain : ∃ fsx, renamePath fsx a b = .ok fs' ∧
      entryAt fsx a = some ea := by
    cases hpar : entryAt fs b.dropLast with
    | some e0 =>
      rw [hpar] at hok
      exact ⟨fs, hok, ha⟩
    | none =>
      rw [hpar] at hok
      cases hmk : mkdirAll fs b.dropLast with
      | error e =>
        rw [hmk] at hok
        cases hok
      | ok fs₁ =>
        rw [hmk] at hok
        exact ⟨fs₁, hok, mkdirAll_keeps fs fs₁ b.dropLast a ea hmk ha⟩
  obtain ⟨fsx, hrp, hax⟩ := hmain
  obtain ⟨h1, h2, hmv, _⟩ := renamePath_ok_elim fsx fs' a b hne hrp
  have ha0 : a ≠ [] := by
    intro he
    rw [he, leads_nil] at h1
    cases h1
  constructor
  · unfold nodeLookup
    rw [hmv, moveTree_no_source fsx a b h1 h2 ha0]
  · unfold nodeLookup
    rw [hmv, entryAt_moveTree_target fsx a b ea h1 h2 hax]

/-- C8, witness: renaming `f` (inode 7, content `[3]`) to `g` makes
`Lookup(f)` NotFound while `Lookup(g)` reports inode 7 and the same
content. -/
theorem nodeRename_lookup_witness :
    nodeLookup [([("g" : String)], .file 7 [3])] [("f" : String)] =
      .error .enoent ∧
    nodeLookup [([("g" : String)], .file 7 [3])] [("g" : String)] =
      .ok (.file 7 [3]) :=
  nodeRename_lookup [([("f" : String)], .file 7 [3])]
    [([("g" : String)], .file 7 [3])] [("f" : String)] [("g" : String)]
    (.file 7 [3]) (by decide) (by decide) (by decide)

/-! Section: theorems for the claims about the transfer protocol. -/

/-- C1: the claim is right and `downloadRemoteFile` (part_000) is wrong.
Run the exchange with the local copy byte-for-byte equal to the server
copy: the content the client hashes is the empty string, not the current
local content (the `O_TRUNC` open has already truncated the file before
the comparison), the hash it sends is the digest of the empty byte
string (`md5.Sum(nil)`), and — whenever that digest differs from the
digest of the shared content — the server streams the whole file instead
of the claimed zero chunks. -/
theorem downloadRemoteFile_not_differential (h : List Nat → GoStr)
    (c : List Nat) (hc : c ≠ []) (hh : h [] ≠ h c) :
    (downloadRemoteFileRun h c c).hashedContent ≠ c ∧
    (downloadRemoteFileRun h c c).sentHash = h [] ∧
    (downloadRemoteFileRun h c c).chunks ≠ [] := by
  refine ⟨by simpa [downloadRemoteFileRun] using (Ne.symm hc), rfl, ?_⟩
  show serverDownload h c (h []) ≠ []
  unfold serverDownload
  rw [if_neg (fun he => hh (Eq.symm he))]
  exact serverChunks_ne_nil c hc

/-- C1, witness: with a two-byte shared content `"hi"` and a digest that
distinguishes it from the empty string, the client hashes a truncated
file and a full chunk stream is sent. -/
theorem downloadRemoteFile_not_differential_witness :
    (downloadRemoteFileRun (fun l => List.replicate l.length 'x')
        [104, 105] [104, 105]).hashedContent ≠ [104, 105] ∧
    (downloadRemoteFileRun (fun l => List.replicate l.length 'x')
        [104, 105] [104, 105]).sentHash =
      (fun l : List Nat => List.replicate l.length 'x') [] ∧
    (downloadRemoteFileRun (fun l => List.replicate l.length 'x')
        [104, 105] [104, 105]).chunks ≠ [] :=
  downloadRemoteFile_not_differential
    (fun l => List.replicate l.length 'x') [104, 105]
    (by decide) (by decide)

/-- C2, counterexample: a stream that delivers one chunk with an empty
payload and announced total 5 writes 0 bytes — a count differing from
the first-seen `totalSize` — yet the completion check returns success
(the `recvBytes == 0` branch), not a size-mismatch error. -/
theorem downloadFinish_zero_write_counterexample :
    firstTotalSize [(⟨[], 0, 5⟩ : Chunk)] = some 5 ∧
    (recvAll [] [(⟨[], 0, 5⟩ : Chunk)]).recvBytes = 0 ∧
    downloadFinish (recvAll [] [(⟨[], 0, 5⟩ : Chunk)]) = .ok () := by
  refine ⟨by decide, by decide, by decide⟩

/-- C2 (amended): for every chunk stream received by the client's
receive loop in which at least one chunk was delivered, if at least one
byte was written and the total written byte count differs from the
first-seen chunk's `totalSize`, the completion check returns a
size-mismatch error; if the totals agree it returns success.  (A
delivered stream that writes zero bytes is treated as the no-change
case and returns success.) -/
theorem downloadFile_size_check (init : List Nat) (chunks : List Chunk)
    (hne : chunks ≠ []) :
    ((recvAll init chunks).recvBytes ≠ 0 →
      firstTotalSize chunks ≠ some (recvAll init chunks).recvBytes →
      ∃ t, firstTotalSize chunks = some t ∧
        downloadFinish (recvAll init chunks) =
          .error (.sizeMismatch t (recvAll init chunks).recvBytes)) ∧
    (firstTotalSize chunks = some (recvAll init chunks).recvBytes →
      downloadFinish (recvAll init chunks) = .ok ()) := by
  have htot := recvAll_first_total init chunks hne
  constructor
  · intro h0 hneq
    cases hfirst : firstTotalSize chunks with
    | none =>
      rw [hfirst] at htot
      cases chunks with
      | nil => cases hne rfl
      | cons c cs => simp [firstTotalSize] at hfirst
    | some t =>
      refine ⟨t, rfl, ?_⟩
      unfold downloadFinish
      rw [htot, hfirst]
      dsimp only
      rw [if_neg h0]
      rw [if_pos]
      intro he
      rw [hfirst, he] at hneq
      exact hneq rfl
  · intro heq
    unfold downloadFinish
    rw [htot, heq]
    dsimp only
    by_cases h0 : (recvAll init chunks).recvBytes = 0
    · rw [if_pos h0]
    · rw [if_neg h0, if_neg (by simp)]

/-- C2, witness: a single delivered chunk carrying 1 byte against an
announced total of 3 produces `SizeMismatch 3 1`. -/
theorem downloadFile_size_check_witness :
    downloadFinish (recvAll [] [(⟨[9], 0, 3⟩ : Chunk)]) =
      .error (.sizeMismatch 3 1) := by
  obtain ⟨t, ht, herr⟩ :=
    (downloadFile_size_check [] [(⟨[9], 0, 3⟩ : Chunk)] (by decide)).1
      (by decide) (by decide)
  have h3 : t = 3 := by
    have hconc : firstTotalSize [(⟨[9], 0, 3⟩ : Chunk)] = some 3 := by
      decide
    rw [hconc] at ht
    exact (Option.some_injective _ ht).symm
  rw [h3] at herr
  have h1 : (recvAll [] [(⟨[9], 0, 3⟩ : Chunk)]).recvBytes = 1 := by
    decide
  rw [h1] at herr
  exact herr

end Fusion
